import Mathlib

/-!
Shallow embedding of the coordination core of `src/dice4.py` (class `MonopolyBot`):
the timed `!go` rendezvous, the serial ImageMagick work queue, and the
reconnect supervisor. Each Python handler is translated to a Lean function on
an explicit bot state; the timer thread and the queue worker are modelled by
an interleaved event semantics in which each Python statement block that runs
without yielding control is one atomic step, and the points where Python's
`threading.Timer` passes its cancellation point are explicit events.
-/

namespace Monopoly

/-- Assoc-list lookup with unique keys, modelling Python dict lookup. -/
def lookupA {α β : Type} [DecidableEq α] (k : α) : List (α × β) → Option β
  | [] => none
  | (a, b) :: rest => if a = k then some b else lookupA k rest

/-- Assoc-list update, modelling Python dict assignment `d[k] = v`
(overwrites in place if the key exists, otherwise appends in insertion order). -/
def updAssoc {α β : Type} [DecidableEq α] (k : α) (v : β) : List (α × β) → List (α × β)
  | [] => [(k, v)]
  | (a, b) :: rest => if a = k then (k, v) :: rest else (a, b) :: updAssoc k v rest

/-- Python `str.isdigit()` on the (already stripped, lowered) message:
nonempty and every character a decimal digit. -/
def pyIsDigit (msg : String) : Bool :=
  decide (msg.length ≠ 0) && msg.toList.all (fun c => c.isDigit)

/-- Python `int(...)` on a digit string. -/
def pyInt (msg : String) : Nat :=
  msg.toList.foldl (fun a c => 10 * a + (c.toNat - 48)) 0

/-- Status of one `threading.Timer` object: `waiting` (cancel still effective),
`expired` (the wait elapsed and the callback is pending: cancel is a no-op),
`done` (callback ran), `cancelled`. -/
inductive TStatus
  | waiting
  | expired
  | done
  | cancelled
deriving DecidableEq

/-- Broadcast (channel) notifications emitted by the `!go` rendezvous.
The payload mirrors exactly the data interpolated into the Python f-strings;
`tag` fields are `Option Nat` because the code interpolates `self.go_active`,
which can be `None` on the racy timeout path. -/
inductive ChanMsg
  | cannotStart (tag : Nat)
  | started (tag : Nat) (users : List String) (timeout : Nat)
  | noActiveToStop
  | stoppedManually (tag : Option Nat)
  | timedOutMissing (tag : Option Nat) (missing : List String)
  | timedOutPlain (tag : Option Nat)
  | completed (tag : Option Nat) (nums : List Nat)
deriving DecidableEq

/-- Directed (private) replies emitted by `on_privmsg`. -/
inductive DirMsg
  | ackReceived (num : Nat) (tag : Option Nat)
  | mustBeZeroToSeven
  | sendZeroToSeven
deriving DecidableEq

/-- An outbound message: channel broadcast or directed private reply. -/
inductive Msg
  | chan (m : ChanMsg)
  | direct (rcpt : String) (m : DirMsg)
deriving DecidableEq

/-- Terminal broadcast notifications of a rendezvous session: manual stop,
timeout, or completion. -/
def isTerminalB : Msg → Bool
  | Msg.chan (ChanMsg.stoppedManually _) => true
  | Msg.chan (ChanMsg.timedOutMissing _ _) => true
  | Msg.chan (ChanMsg.timedOutPlain _) => true
  | Msg.chan (ChanMsg.completed _ _) => true
  | _ => false

/-- The `go_input_users` list from `MonopolyBot.__init__`: only these users
send numbers. -/
def goInputUsers : List String := ["player1bot", "player2bot"]

/-- The mutable `!go` state of `MonopolyBot`, together with the world of
timer threads it has spawned and the messages it has emitted (in order).
`goTimerField` is the `self.go_timer` attribute (identifier of the timer
object it points to); `timers` records the status of every spawned timer. -/
structure BotState where
  goActive : Option Nat
  goTimeout : Nat
  goNumbers : List (String × Nat)
  goTimerField : Option Nat
  goLock : Bool
  timers : List (Nat × TStatus)
  nextTimerId : Nat
  msgs : List Msg
deriving DecidableEq

/-- Initial state built by `MonopolyBot.__init__`. -/
def initState : BotState :=
  { goActive := none, goTimeout := 60, goNumbers := [], goTimerField := none,
    goLock := false, timers := [], nextTimerId := 0, msgs := [] }

/-- `Timer.cancel()`: only a timer still in its waiting stage is cancelled;
an expired or finished timer is unaffected. -/
def cancelTimer (id : Nat) (ts : List (Nat × TStatus)) : List (Nat × TStatus) :=
  ts.map (fun p => if p.1 = id ∧ p.2 = TStatus.waiting then (p.1, TStatus.cancelled) else p)

/-- Set the status of timer `id`. -/
def setTimer (id : Nat) (st : TStatus) (ts : List (Nat × TStatus)) : List (Nat × TStatus) :=
  ts.map (fun p => if p.1 = id then (p.1, st) else p)

/-- The `if self.go_timer: self.go_timer.cancel()` idiom. -/
def cancelFieldTimers (s : BotState) : List (Nat × TStatus) :=
  match s.goTimerField with
  | some id => cancelTimer id s.timers
  | none => s.timers

/-- `MonopolyBot._reset_go_state`: clear the active tag and collected numbers,
cancel and drop the timer, release the lock if held. -/
def resetGoState (s : BotState) : BotState :=
  { s with goActive := none, goNumbers := [],
           timers := cancelFieldTimers s, goTimerField := none,
           goLock := false }

/-- `MonopolyBot._go_complete`: broadcast the collected numbers in the fixed
order of `go_input_users` (missing users default to 0 via `dict.get(u, 0)`),
then reset. -/
def goComplete (s : BotState) : BotState :=
  resetGoState { s with msgs := s.msgs ++ [Msg.chan (ChanMsg.completed s.goActive
    (goInputUsers.map (fun u => (lookupA u s.goNumbers).getD 0)))] }

/-- `MonopolyBot._go_timeout` body: broadcast a timeout notice naming the
expected users with no collected number, then reset. Note that it reads
`self.go_active` and `self.go_numbers` with no liveness check and no lock. -/
def goTimeoutBody (s : BotState) : BotState :=
  resetGoState { s with msgs := s.msgs ++ [Msg.chan (
    if (goInputUsers.filter (fun u => (lookupA u s.goNumbers).isNone)).isEmpty
    then ChanMsg.timedOutPlain s.goActive
    else ChanMsg.timedOutMissing s.goActive
      (goInputUsers.filter (fun u => (lookupA u s.goNumbers).isNone)))] }

/-- `MonopolyBot.handle_go_command`: non-blocking acquire of `go_lock`; on
failure report and change nothing; on success install the new session state,
broadcast the start notice, cancel any old timer and arm a fresh one. -/
def handleGoCommand (tag : Nat) (targ : Option Nat) (s : BotState) : BotState :=
  if s.goLock then
    { s with msgs := s.msgs ++ [Msg.chan (ChanMsg.cannotStart tag)] }
  else
    { s with goLock := true, goActive := some tag, goTimeout := targ.getD 60,
             goNumbers := [],
             msgs := s.msgs ++ [Msg.chan (ChanMsg.started tag goInputUsers (targ.getD 60))],
             timers := cancelFieldTimers s ++ [(s.nextTimerId, TStatus.waiting)],
             goTimerField := some s.nextTimerId,
             nextTimerId := s.nextTimerId + 1 }

/-- `MonopolyBot.handle_stopgo`: report if no session; otherwise cancel the
timer, broadcast the manual-stop notice, and reset. -/
def handleStopgo (s : BotState) : BotState :=
  if s.goActive.isSome then
    resetGoState { s with timers := cancelFieldTimers s, goTimerField := none,
                          msgs := s.msgs ++ [Msg.chan (ChanMsg.stoppedManually s.goActive)] }
  else
    { s with msgs := s.msgs ++ [Msg.chan ChanMsg.noActiveToStop] }

/-- The state mutation of an accepted submission in `on_privmsg`:
`self.go_numbers[sender] = num` plus the directed acknowledgment. -/
def acceptState (sender : String) (num : Nat) (tg : Nat) (s : BotState) : BotState :=
  { s with goNumbers := updAssoc sender num s.goNumbers,
           msgs := s.msgs ++ [Msg.direct sender (DirMsg.ackReceived num (some tg))] }

/-- An accepted submission followed by the completion check
`len(self.go_numbers) == len(self.go_input_users)`. -/
def submitAccept (sender : String) (num : Nat) (tg : Nat) (s : BotState) : BotState :=
  if (updAssoc sender num s.goNumbers).length = goInputUsers.length
  then goComplete (acceptState sender num tg s)
  else acceptState sender num tg s

/-- `MonopolyBot.on_privmsg`: if a session is live and the sender is an
expected input user, accept a digit string in [0,7] (last write wins,
directed ack, synchronous completion when all users are in), reject anything
else with a directed reply; otherwise do nothing at all. -/
def onPrivmsg (sender msg : String) (s : BotState) : BotState :=
  match s.goActive with
  | none => s
  | some tg =>
    if sender ∈ goInputUsers then
      if pyIsDigit msg then
        if pyInt msg ≤ 7 then
          submitAccept sender (pyInt msg) tg s
        else { s with msgs := s.msgs ++ [Msg.direct sender DirMsg.mustBeZeroToSeven] }
      else { s with msgs := s.msgs ++ [Msg.direct sender DirMsg.sendZeroToSeven] }
    else s

/-- Atomic events of the interleaved semantics: the three message handlers
(each runs without yielding in the single IRC event thread), the instant a
timer's wait elapses (after which `cancel` is a no-op), and the subsequent
execution of the timer's callback on its own thread. -/
inductive Event
  | handleGo (tag : Nat) (targ : Option Nat)
  | stopGo
  | privMsg (sender msg : String)
  | timerExpire (id : Nat)
  | timerRun (id : Nat)

/-- One step of the bot: dispatch an event against the current state.
`timerExpire`/`timerRun` are no-ops unless the timer is in the right stage. -/
def step (s : BotState) : Event → BotState
  | Event.handleGo tag targ => handleGoCommand tag targ s
  | Event.stopGo => handleStopgo s
  | Event.privMsg sender msg => onPrivmsg sender msg s
  | Event.timerExpire id =>
      if lookupA id s.timers = some TStatus.waiting
      then { s with timers := setTimer id TStatus.expired s.timers } else s
  | Event.timerRun id =>
      if lookupA id s.timers = some TStatus.expired
      then goTimeoutBody { s with timers := setTimer id TStatus.done s.timers } else s

/-- Run a sequence of events from the initial state. -/
def run (evs : List Event) : BotState :=
  evs.foldl step initState

/-! Helper lemmas about the dict model. -/

theorem lookupA_updAssoc_self {α β : Type} [DecidableEq α] (k : α) (v : β) (l : List (α × β)) :
    lookupA k (updAssoc k v l) = some v := by
  induction l with
  | nil => simp [updAssoc, lookupA]
  | cons q rest ih =>
    obtain ⟨a, b⟩ := q
    by_cases hak : a = k
    · simp [updAssoc, hak, lookupA]
    · simp [updAssoc, hak, lookupA, ih]

theorem mem_updAssoc {α β : Type} [DecidableEq α] {p : α × β} {k : α} {v : β}
    {l : List (α × β)} (h : p ∈ updAssoc k v l) : p = (k, v) ∨ p ∈ l := by
  induction l with
  | nil => simpa [updAssoc] using h
  | cons q rest ih =>
    obtain ⟨a, b⟩ := q
    by_cases hak : a = k
    · simp only [updAssoc, if_pos hak, List.mem_cons] at h
      rcases h with h | h
      · exact Or.inl h
      · exact Or.inr (List.mem_cons_of_mem _ h)
    · simp only [updAssoc, if_neg hak, List.mem_cons] at h
      rcases h with h | h
      · exact Or.inr (by simp [h])
      · rcases ih h with h2 | h2
        · exact Or.inl h2
        · exact Or.inr (List.mem_cons_of_mem _ h2)

theorem keys_updAssoc {α β : Type} [DecidableEq α] (k : α) (v : β) (l : List (α × β)) :
    (updAssoc k v l).map Prod.fst =
      if k ∈ l.map Prod.fst then l.map Prod.fst else l.map Prod.fst ++ [k] := by
  induction l with
  | nil => simp [updAssoc]
  | cons q rest ih =>
    obtain ⟨a, b⟩ := q
    by_cases hak : a = k
    · subst hak; simp [updAssoc]
    · by_cases hk : k ∈ rest.map Prod.fst
      · simp [updAssoc, hak, ih, hk, Ne.symm hak]
      · simp [updAssoc, hak, ih, hk, Ne.symm hak]

theorem nodup_keys_updAssoc {α β : Type} [DecidableEq α] (k : α) (v : β)
    {l : List (α × β)} (h : (l.map Prod.fst).Nodup) :
    ((updAssoc k v l).map Prod.fst).Nodup := by
  rw [keys_updAssoc]
  by_cases hk : k ∈ l.map Prod.fst
  · simpa [hk] using h
  · simp [hk, List.nodup_append, h]

theorem lookupA_isSome_iff {α β : Type} [DecidableEq α] (k : α) (l : List (α × β)) :
    (lookupA k l).isSome = true ↔ k ∈ l.map Prod.fst := by
  induction l with
  | nil => simp [lookupA]
  | cons q rest ih =>
    obtain ⟨a, b⟩ := q
    by_cases hak : a = k
    · simp [lookupA, hak]
    · simp [lookupA, hak, ih, Ne.symm hak]

theorem lookupA_append_of_not_mem {α β : Type} [DecidableEq α] (k : α)
    {l1 : List (α × β)} (l2 : List (α × β)) (h : k ∉ l1.map Prod.fst) :
    lookupA k (l1 ++ l2) = lookupA k l2 := by
  induction l1 with
  | nil => rfl
  | cons q rest ih =>
    obtain ⟨a, b⟩ := q
    simp only [List.map_cons, List.mem_cons, not_or] at h
    have hne : ¬(a = k) := fun hh => h.1 hh.symm
    simp only [List.cons_append, lookupA, if_neg hne]
    exact ih h.2

/-! Helper lemmas about the timer world. -/

theorem fst_map_of_preserve (f : Nat × TStatus → Nat × TStatus)
    (hf : ∀ p, (f p).1 = p.1) (ts : List (Nat × TStatus)) :
    (ts.map f).map Prod.fst = ts.map Prod.fst := by
  induction ts with
  | nil => rfl
  | cons p rest ih => simp [hf, ih]

theorem fst_cancelTimer (id : Nat) (ts : List (Nat × TStatus)) :
    (cancelTimer id ts).map Prod.fst = ts.map Prod.fst :=
  fst_map_of_preserve _
    (fun p => by by_cases h : p.1 = id ∧ p.2 = TStatus.waiting <;> simp [h]) ts

theorem fst_setTimer (id : Nat) (st : TStatus) (ts : List (Nat × TStatus)) :
    (setTimer id st ts).map Prod.fst = ts.map Prod.fst :=
  fst_map_of_preserve _ (fun p => by by_cases h : p.1 = id <;> simp [h]) ts

theorem fst_cancelFieldTimers (s : BotState) :
    (cancelFieldTimers s).map Prod.fst = s.timers.map Prod.fst := by
  unfold cancelFieldTimers
  cases s.goTimerField with
  | none => rfl
  | some id => exact fst_cancelTimer id s.timers

/-! The reachability invariant of the rendezvous state. -/

/-- Invariant of every reachable bot state: the lock is held exactly while a
session is live; collected keys lie in `goInputUsers` with values in [0,7];
the collected dict has unique keys; all spawned timer ids are below the
fresh-id counter. -/
structure Inv (s : BotState) : Prop where
  lock_iff : s.goLock = s.goActive.isSome
  keys_ok : ∀ p ∈ s.goNumbers, p.1 ∈ goInputUsers ∧ p.2 ≤ 7
  keys_nodup : (s.goNumbers.map Prod.fst).Nodup
  ids_lt : ∀ k ∈ s.timers.map Prod.fst, k < s.nextTimerId

theorem inv_initState : Inv initState :=
  ⟨rfl, by simp [initState], by simp [initState], by simp [initState]⟩

theorem inv_msgs {s : BotState} (h : Inv s) (ms : List Msg) : Inv { s with msgs := ms } :=
  ⟨h.lock_iff, h.keys_ok, h.keys_nodup, h.ids_lt⟩

theorem inv_resetGoState {s : BotState} (h : Inv s) : Inv (resetGoState s) := by
  refine ⟨rfl, by simp [resetGoState], by simp [resetGoState], ?_⟩
  intro k hk
  simp only [resetGoState] at hk
  rw [fst_cancelFieldTimers] at hk
  exact h.ids_lt k hk

theorem inv_goComplete {s : BotState} (h : Inv s) : Inv (goComplete s) := by
  unfold goComplete
  exact inv_resetGoState (inv_msgs h _)

theorem inv_goTimeoutBody {s : BotState} (h : Inv s) : Inv (goTimeoutBody s) := by
  unfold goTimeoutBody
  exact inv_resetGoState (inv_msgs h _)

theorem inv_acceptState {s : BotState} (h : Inv s) {sender : String} {num : Nat}
    (tg : Nat) (hm : sender ∈ goInputUsers) (hn : num ≤ 7) :
    Inv (acceptState sender num tg s) := by
  refine ⟨h.lock_iff, ?_, ?_, h.ids_lt⟩
  · intro p hp
    rcases mem_updAssoc hp with rfl | hp2
    · exact ⟨hm, hn⟩
    · exact h.keys_ok p hp2
  · exact nodup_keys_updAssoc _ _ h.keys_nodup

theorem inv_submitAccept {s : BotState} (h : Inv s) {sender : String} {num : Nat}
    (tg : Nat) (hm : sender ∈ goInputUsers) (hn : num ≤ 7) :
    Inv (submitAccept sender num tg s) := by
  unfold submitAccept
  by_cases hc : (updAssoc sender num s.goNumbers).length = goInputUsers.length
  · simp only [if_pos hc]
    exact inv_goComplete (inv_acceptState h tg hm hn)
  · simp only [if_neg hc]
    exact inv_acceptState h tg hm hn

theorem inv_onPrivmsg {s : BotState} (h : Inv s) (sender msg : String) :
    Inv (onPrivmsg sender msg s) := by
  obtain ⟨ga, gt, gn, gtf, gl, tm, nid, ms⟩ := s
  cases ga with
  | none => exact h
  | some tg =>
    by_cases hm : sender ∈ goInputUsers
    · by_cases hd : pyIsDigit msg = true
      · by_cases hr : pyInt msg ≤ 7
        · simpa [onPrivmsg, hm, hd, hr] using inv_submitAccept h tg hm hr
        · simpa [onPrivmsg, hm, hd, hr] using inv_msgs h _
      · simpa [onPrivmsg, hm, hd] using inv_msgs h _
    · simpa [onPrivmsg, hm] using h

theorem inv_handleGoCommand {s : BotState} (h : Inv s) (tag : Nat) (targ : Option Nat) :
    Inv (handleGoCommand tag targ s) := by
  unfold handleGoCommand
  by_cases hl : s.goLock = true
  · simpa [hl] using inv_msgs h _
  · simp only [hl, if_false, Bool.false_eq_true]
    refine ⟨rfl, by simp, by simp, ?_⟩
    intro k hk
    simp only [List.map_append, List.mem_append] at hk
    rcases hk with hk | hk
    · rw [fst_cancelFieldTimers] at hk
      exact Nat.lt_succ_of_lt (h.ids_lt k hk)
    · simp only [List.map_cons, List.map_nil, List.mem_singleton] at hk
      subst hk
      exact Nat.lt_succ_self _

theorem inv_handleStopgo {s : BotState} (h : Inv s) : Inv (handleStopgo s) := by
  unfold handleStopgo
  by_cases ha : s.goActive.isSome = true
  · simp only [ha, if_true]
    apply inv_resetGoState
    refine ⟨h.lock_iff, h.keys_ok, h.keys_nodup, ?_⟩
    intro k hk
    rw [fst_cancelFieldTimers] at hk
    exact h.ids_lt k hk
  · simpa [ha] using inv_msgs h _

theorem inv_step {s : BotState} (h : Inv s) (e : Event) : Inv (step s e) := by
  cases e with
  | handleGo tag targ => exact inv_handleGoCommand h tag targ
  | stopGo => exact inv_handleStopgo h
  | privMsg sender msg => exact inv_onPrivmsg h sender msg
  | timerExpire id =>
    unfold step
    by_cases hc : lookupA id s.timers = some TStatus.waiting
    · simp only [if_pos hc]
      refine ⟨h.lock_iff, h.keys_ok, h.keys_nodup, ?_⟩
      intro k hk
      rw [fst_setTimer] at hk
      exact h.ids_lt k hk
    · simp only [if_neg hc]
      exact h
  | timerRun id =>
    unfold step
    by_cases hc : lookupA id s.timers = some TStatus.expired
    · simp only [if_pos hc]
      apply inv_goTimeoutBody
      refine ⟨h.lock_iff, h.keys_ok, h.keys_nodup, ?_⟩
      intro k hk
      rw [fst_setTimer] at hk
      exact h.ids_lt k hk
    · simp only [if_neg hc]
      exact h

theorem inv_run_from : ∀ (evs : List Event) (s : BotState), Inv s → Inv (evs.foldl step s)
  | [], _, hs => hs
  | e :: rest, s, hs => inv_run_from rest (step s e) (inv_step hs e)

theorem inv_run (evs : List Event) : Inv (run evs) :=
  inv_run_from evs initState inv_initState

/-! Claim theorems for the rendezvous. -/

/-- Claim C1, code-bug exhibit: in a single session of tag 1, if the deadline
timer passes its cancellation point just before the last expected number
arrives, the code emits TWO terminal broadcasts — the completion message and
then a timeout message rendered with tag `None` listing both users as
missing — because `_go_timeout` neither checks liveness nor acquires
`go_lock` before broadcasting and tearing down. -/
theorem c1_double_terminal_notification :
    (run [Event.handleGo 1 none, Event.privMsg "player1bot" "5", Event.timerExpire 0,
          Event.privMsg "player2bot" "3", Event.timerRun 0]).msgs =
      [Msg.chan (ChanMsg.started 1 ["player1bot", "player2bot"] 60),
       Msg.direct "player1bot" (DirMsg.ackReceived 5 (some 1)),
       Msg.direct "player2bot" (DirMsg.ackReceived 3 (some 1)),
       Msg.chan (ChanMsg.completed (some 1) [5, 3]),
       Msg.chan (ChanMsg.timedOutMissing none ["player1bot", "player2bot"])] ∧
    ((run [Event.handleGo 1 none, Event.privMsg "player1bot" "5", Event.timerExpire 0,
           Event.privMsg "player2bot" "3", Event.timerRun 0]).msgs.countP isTerminalB) = 2 :=
  ⟨rfl, rfl⟩

theorem c2_general (s : BotState) (hInv : Inv s) (tag : Nat) (targ : Option Nat) :
    (s.goActive = none →
       (handleGoCommand tag targ s).goActive = some tag ∧
       (handleGoCommand tag targ s).goNumbers = [] ∧
       (handleGoCommand tag targ s).goTimeout = targ.getD 60 ∧
       (handleGoCommand tag targ s).goLock = true ∧
       (handleGoCommand tag targ s).msgs =
         s.msgs ++ [Msg.chan (ChanMsg.started tag goInputUsers (targ.getD 60))] ∧
       (handleGoCommand tag targ s).goTimerField = some s.nextTimerId ∧
       lookupA s.nextTimerId (handleGoCommand tag targ s).timers = some TStatus.waiting) ∧
    (s.goActive ≠ none →
       handleGoCommand tag targ s =
         { s with msgs := s.msgs ++ [Msg.chan (ChanMsg.cannotStart tag)] }) := by
  constructor
  · intro hnone
    have hl : s.goLock = false := by rw [hInv.lock_iff, hnone]; rfl
    have hcond : ¬(s.goLock = true) := by simp [hl]
    unfold handleGoCommand
    rw [if_neg hcond]
    refine ⟨rfl, rfl, rfl, rfl, rfl, rfl, ?_⟩
    show lookupA s.nextTimerId (cancelFieldTimers s ++ [(s.nextTimerId, TStatus.waiting)])
      = some TStatus.waiting
    rw [lookupA_append_of_not_mem]
    · simp [lookupA]
    · rw [fst_cancelFieldTimers]
      intro hmem
      exact absurd (hInv.ids_lt _ hmem) (Nat.lt_irrefl _)
  · intro hsome
    have hl : s.goLock = true := by
      rw [hInv.lock_iff, Option.isSome_iff_ne_none]
      exact hsome
    unfold handleGoCommand
    rw [if_pos hl]

/-- Claim C2: a `!go` start call (on any reachable state) begins a new session
if and only if no session is live: from an idle state it installs the tag,
empties the collected dict, takes the timeout override (default 60), holds the
lock, broadcasts the start notice and arms a fresh waiting timer; while a
session is live it only broadcasts the cannot-start report and leaves every
piece of session state unchanged, via the non-blocking `go_lock` acquire. -/
theorem c2_start_iff_idle (evs : List Event) (tag : Nat) (targ : Option Nat) :
    ((run evs).goActive = none →
       (handleGoCommand tag targ (run evs)).goActive = some tag ∧
       (handleGoCommand tag targ (run evs)).goNumbers = [] ∧
       (handleGoCommand tag targ (run evs)).goTimeout = targ.getD 60 ∧
       (handleGoCommand tag targ (run evs)).goLock = true ∧
       (handleGoCommand tag targ (run evs)).msgs =
         (run evs).msgs ++ [Msg.chan (ChanMsg.started tag goInputUsers (targ.getD 60))] ∧
       (handleGoCommand tag targ (run evs)).goTimerField = some (run evs).nextTimerId ∧
       lookupA (run evs).nextTimerId (handleGoCommand tag targ (run evs)).timers
         = some TStatus.waiting) ∧
    ((run evs).goActive ≠ none →
       handleGoCommand tag targ (run evs) =
         { run evs with msgs := (run evs).msgs ++ [Msg.chan (ChanMsg.cannotStart tag)] }) :=
  c2_general (run evs) (inv_run evs) tag targ

theorem c2_witness :
    (handleGoCommand 3 none (run [])).goActive = some 3 ∧
    handleGoCommand 2 none (run [Event.handleGo 1 none]) =
      { run [Event.handleGo 1 none] with msgs :=
          (run [Event.handleGo 1 none]).msgs ++ [Msg.chan (ChanMsg.cannotStart 2)] } :=
  ⟨((c2_start_iff_idle [] 3 none).1 rfl).1,
   (c2_start_iff_idle [Event.handleGo 1 none] 2 none).2 (by decide)⟩

/-- Claim C5, counterexample: a valid-looking submission from an expected user
while no session is live produces no reply whatsoever (the code's outer guard
silently returns), contradicting the claim that such submissions are reported
back as NoActiveSession. -/
theorem c5_counterexample :
    (run [Event.privMsg "player1bot" "3"]).msgs = [] ∧ initState.goActive = none :=
  ⟨rfl, rfl⟩

/-- Claim C5 as amended: a submission made while no session is live, or from a
sender outside the expected input set, is silently ignored — no reply is
emitted and the whole state is left unchanged. -/
theorem c5_silent_drop (s : BotState) (sender msg : String)
    (h : s.goActive = none ∨ sender ∉ goInputUsers) :
    onPrivmsg sender msg s = s := by
  obtain ⟨ga, gt, gn, gtf, gl, tm, nid, ms⟩ := s
  cases ga with
  | none => rfl
  | some tg =>
    rcases h with h | h
    · simp at h
    · simp [onPrivmsg, h]

theorem c5_witness : onPrivmsg "player1bot" "3" initState = initState :=
  c5_silent_drop initState "player1bot" "3" (Or.inl rfl)

/-- Claim C3: while a session with tag `t` is live, a submission from an
expected user is accepted exactly when the message is a digit string whose
value is at most 7. An accepted value overwrites any previous value of the
same sender (last write wins), a directed acknowledgment is sent, and the
collected dict becomes the updated dict (unless this submission completes the
session, in which case the completion broadcast reports the updated values
and the dict is cleared by teardown). A rejected value changes nothing except
appending the directed range reply. -/
theorem c3_submission (s : BotState) (t : Nat) (sender msg : String)
    (ha : s.goActive = some t) (hm : sender ∈ goInputUsers) :
    ((pyIsDigit msg = true ∧ pyInt msg ≤ 7) →
       lookupA sender (updAssoc sender (pyInt msg) s.goNumbers) = some (pyInt msg) ∧
       (onPrivmsg sender msg s).msgs =
         s.msgs ++ [Msg.direct sender (DirMsg.ackReceived (pyInt msg) (some t))] ++
           (if (updAssoc sender (pyInt msg) s.goNumbers).length = goInputUsers.length
            then [Msg.chan (ChanMsg.completed (some t)
                   (goInputUsers.map (fun u =>
                     (lookupA u (updAssoc sender (pyInt msg) s.goNumbers)).getD 0)))]
            else []) ∧
       (onPrivmsg sender msg s).goNumbers =
         (if (updAssoc sender (pyInt msg) s.goNumbers).length = goInputUsers.length
          then [] else updAssoc sender (pyInt msg) s.goNumbers)) ∧
    (¬(pyIsDigit msg = true ∧ pyInt msg ≤ 7) →
       onPrivmsg sender msg s =
         { s with msgs := s.msgs ++ [Msg.direct sender
             (if pyIsDigit msg then DirMsg.mustBeZeroToSeven else DirMsg.sendZeroToSeven)] }) := by
  obtain ⟨ga, gt, gn, gtf, gl, tm, nid, ms⟩ := s
  have ha' : ga = some t := ha
  subst ha'
  constructor
  · rintro ⟨hd, hr⟩
    refine ⟨lookupA_updAssoc_self _ _ _, ?_, ?_⟩
    · by_cases hc : (updAssoc sender (pyInt msg) gn).length = goInputUsers.length
      · simp [onPrivmsg, hm, hd, hr, submitAccept, acceptState, goComplete, resetGoState, hc]
      · simp [onPrivmsg, hm, hd, hr, submitAccept, acceptState, hc]
    · by_cases hc : (updAssoc sender (pyInt msg) gn).length = goInputUsers.length
      · simp [onPrivmsg, hm, hd, hr, submitAccept, acceptState, goComplete, resetGoState, hc]
      · simp [onPrivmsg, hm, hd, hr, submitAccept, acceptState, hc]
  · intro hno
    by_cases hd : pyIsDigit msg = true
    · have hr : ¬(pyInt msg ≤ 7) := fun hr => hno ⟨hd, hr⟩
      simp [onPrivmsg, hm, hd, hr]
    · simp [onPrivmsg, hm, hd]

theorem c3_witness :
    (onPrivmsg "player1bot" "9" (run [Event.handleGo 2 none]) =
      { run [Event.handleGo 2 none] with msgs :=
          (run [Event.handleGo 2 none]).msgs ++
            [Msg.direct "player1bot" DirMsg.mustBeZeroToSeven] }) ∧
    lookupA "player1bot"
      (updAssoc "player1bot" (pyInt "5") (run [Event.handleGo 2 none]).goNumbers)
      = some (pyInt "5") := by
  constructor
  · have h := (c3_submission (run [Event.handleGo 2 none]) 2 "player1bot" "9"
      rfl (by decide)).2 (by decide)
    simpa using h
  · exact ((c3_submission (run [Event.handleGo 2 none]) 2 "player1bot" "5"
      rfl (by decide)).1 (by decide)).1

theorem c4_general (s : BotState) (hInv : Inv s) (t : Nat) (sender msg : String)
    (ha : s.goActive = some t) (hm : sender ∈ goInputUsers)
    (hd : pyIsDigit msg = true) (hr : pyInt msg ≤ 7)
    (hcov : ∀ u ∈ goInputUsers, u ∈ (updAssoc sender (pyInt msg) s.goNumbers).map Prod.fst) :
    (onPrivmsg sender msg s).msgs =
      s.msgs ++ [Msg.direct sender (DirMsg.ackReceived (pyInt msg) (some t)),
                 Msg.chan (ChanMsg.completed (some t)
                   (goInputUsers.map (fun u =>
                     (lookupA u (updAssoc sender (pyInt msg) s.goNumbers)).getD 0)))] ∧
    (onPrivmsg sender msg s).goActive = none ∧
    (onPrivmsg sender msg s).goNumbers = [] ∧
    (onPrivmsg sender msg s).goLock = false ∧
    (onPrivmsg sender msg s).goTimerField = none := by
  have hsub : (updAssoc sender (pyInt msg) s.goNumbers).map Prod.fst ⊆ goInputUsers := by
    intro k hk
    rcases List.mem_map.mp hk with ⟨p, hp, rfl⟩
    rcases mem_updAssoc hp with rfl | hp2
    · exact hm
    · exact (hInv.keys_ok p hp2).1
  have hnd : ((updAssoc sender (pyInt msg) s.goNumbers).map Prod.fst).Nodup :=
    nodup_keys_updAssoc _ _ hInv.keys_nodup
  have hndu : goInputUsers.Nodup := by decide
  have h1 : ((updAssoc sender (pyInt msg) s.goNumbers).map Prod.fst).length
      ≤ goInputUsers.length := (hnd.subperm hsub).length_le
  have h2 : goInputUsers.length
      ≤ ((updAssoc sender (pyInt msg) s.goNumbers).map Prod.fst).length :=
    (hndu.subperm (fun u hu => hcov u hu)).length_le
  have hlen : (updAssoc sender (pyInt msg) s.goNumbers).length = goInputUsers.length := by
    have := Nat.le_antisymm h1 h2
    simpa using this
  obtain ⟨ga, gt, gn, gtf, gl, tm, nid, ms⟩ := s
  have ha' : ga = some t := ha
  subst ha'
  refine ⟨?_, ?_, ?_, ?_, ?_⟩ <;>
    simp [onPrivmsg, hm, hd, hr, submitAccept, acceptState, goComplete, resetGoState,
      hlen]

/-- Claim C4: on any reachable state with a live session, when an accepted
submission makes the collected dict cover every expected user, the session
completes synchronously inside the handler: the directed ack is followed by a
single broadcast carrying the collected values in the fixed `go_input_users`
order (a missing user would be reported as `dict.get` default 0), and the
session state is torn down (tag cleared, dict cleared, lock released, timer
field disarmed) before the handler returns. -/
theorem c4_synchronous_completion (evs : List Event) (t : Nat) (sender msg : String)
    (ha : (run evs).goActive = some t) (hm : sender ∈ goInputUsers)
    (hd : pyIsDigit msg = true) (hr : pyInt msg ≤ 7)
    (hcov : ∀ u ∈ goInputUsers,
      u ∈ (updAssoc sender (pyInt msg) (run evs).goNumbers).map Prod.fst) :
    (onPrivmsg sender msg (run evs)).msgs =
      (run evs).msgs ++ [Msg.direct sender (DirMsg.ackReceived (pyInt msg) (some t)),
                 Msg.chan (ChanMsg.completed (some t)
                   (goInputUsers.map (fun u =>
                     (lookupA u (updAssoc sender (pyInt msg) (run evs).goNumbers)).getD 0)))] ∧
    (onPrivmsg sender msg (run evs)).goActive = none ∧
    (onPrivmsg sender msg (run evs)).goNumbers = [] ∧
    (onPrivmsg sender msg (run evs)).goLock = false ∧
    (onPrivmsg sender msg (run evs)).goTimerField = none :=
  c4_general (run evs) (inv_run evs) t sender msg ha hm hd hr hcov

theorem c4_witness :
    (onPrivmsg "player2bot" "3"
      (run [Event.handleGo 2 none, Event.privMsg "player1bot" "5"])).goActive = none :=
  (c4_synchronous_completion [Event.handleGo 2 none, Event.privMsg "player1bot" "5"]
    2 "player2bot" "3" rfl (by decide) (by decide) (by decide) (by decide)).2.1

/-- Claim C10: in every reachable state, the keys of the collected dict are
expected input users and every stored value is at most 7 (values are naturals,
hence in [0,7]). -/
theorem c10_collected_invariant (evs : List Event) :
    ∀ p ∈ (run evs).goNumbers, p.1 ∈ goInputUsers ∧ p.2 ≤ 7 :=
  (inv_run evs).keys_ok

theorem c10_witness :
    (("player1bot", 5) ∈ (run [Event.handleGo 1 none, Event.privMsg "player1bot" "5"]).goNumbers)
      ∧ ("player1bot" ∈ goInputUsers ∧ 5 ≤ 7) :=
  ⟨by decide,
   c10_collected_invariant [Event.handleGo 1 none, Event.privMsg "player1bot" "5"]
     ("player1bot", 5) (by decide)⟩

/-! The serial ImageMagick update queue (`mogrify_queue` / `process_queue`).
A single worker thread consumes tasks `(coord, color)` in FIFO order; the
sentinel coordinate "REPLACE_MAP" marks a replace task. The environment
decides whether the collaborator invocation raises and whether the IRC
connection is live at notification time. -/

inductive ROutcome
  | ok
  | err (e : String)
deriving DecidableEq

/-- Observable effects of the queue worker: the mogrify draw invocation, the
artifact replacement move, the `!up` privmsg to rentobot, and the caught-error
log line. -/
inductive QAction
  | invokeRender (coord color : String)
  | replaceArtifact (path : String)
  | notifyCompanion
  | logQueueError (e : String)
deriving DecidableEq

/-- Effect of processing one task in `process_queue`: a replace task moves the
new artifact into place; a draw task invokes mogrify and then, only if the
connection reports itself live, notifies rentobot; a raised collaborator error
is caught and logged. -/
def taskActions (t : String × String) (o : ROutcome) (connected : Bool) : List QAction :=
  if t.1 = "REPLACE_MAP" then
    match o with
    | ROutcome.ok => [QAction.replaceArtifact t.2]
    | ROutcome.err e => [QAction.logQueueError e]
  else
    match o with
    | ROutcome.ok =>
        QAction.invokeRender t.1 t.2 :: (if connected then [QAction.notifyCompanion] else [])
    | ROutcome.err e => [QAction.logQueueError e]

/-- Queue system state: the full enqueue history in order, the tasks still
pending, the tasks already consumed (with the outcome and connection flag
observed when each was processed), and the ordered effect trace. -/
structure QState where
  enqueuedLog : List (String × String)
  pending : List (String × String)
  applied : List ((String × String) × ROutcome × Bool)
  actions : List QAction
deriving DecidableEq

def qinit : QState := ⟨[], [], [], []⟩

/-- Queue events: a producer calls `queue.put` (never blocks), or the single
worker completes one iteration of its loop on the head task. -/
inductive QEvent
  | enqueueTask (t : String × String)
  | processOne (o : ROutcome) (connected : Bool)

def qstep (s : QState) : QEvent → QState
  | QEvent.enqueueTask t =>
      { s with enqueuedLog := s.enqueuedLog ++ [t], pending := s.pending ++ [t] }
  | QEvent.processOne o c =>
      match s.pending with
      | [] => s
      | t :: rest =>
          { s with pending := rest, applied := s.applied ++ [(t, o, c)],
                   actions := s.actions ++ taskActions t o c }

def qrun (evs : List QEvent) : QState := evs.foldl qstep qinit

/-- The effect trace generated by a list of consumed tasks, in order. -/
def actionsOf : List ((String × String) × ROutcome × Bool) → List QAction
  | [] => []
  | e :: rest => taskActions e.1 e.2.1 e.2.2 ++ actionsOf rest

theorem actionsOf_append (l1 l2 : List ((String × String) × ROutcome × Bool)) :
    actionsOf (l1 ++ l2) = actionsOf l1 ++ actionsOf l2 := by
  induction l1 with
  | nil => rfl
  | cons e rest ih => simp [actionsOf, ih]

/-- Invariant of the queue system: consumed tasks followed by pending tasks
are exactly the enqueue history (strict FIFO), and the effect trace is the
concatenation of the per-task effects in consumption order. -/
structure QInv (s : QState) : Prop where
  fifo : s.applied.map Prod.fst ++ s.pending = s.enqueuedLog
  acts : s.actions = actionsOf s.applied

theorem qinv_init : QInv qinit := ⟨rfl, rfl⟩

theorem qinv_step {s : QState} (h : QInv s) (e : QEvent) : QInv (qstep s e) := by
  cases e with
  | enqueueTask t =>
      refine ⟨?_, h.acts⟩
      simp [qstep, ← h.fifo]
  | processOne o c =>
      cases hp : s.pending with
      | nil => simpa [qstep, hp] using h
      | cons t rest =>
          refine ⟨?_, ?_⟩
          · have := h.fifo
            rw [hp] at this
            simp [qstep, hp, ← this]
          · simp [qstep, hp, h.acts, actionsOf_append, actionsOf]

theorem qinv_run_from : ∀ (evs : List QEvent) (s : QState), QInv s → QInv (evs.foldl qstep s)
  | [], _, hs => hs
  | e :: rest, s, hs => qinv_run_from rest (qstep s e) (qinv_step hs e)

theorem qinv_run (evs : List QEvent) : QInv (qrun evs) :=
  qinv_run_from evs qinit qinv_init

/-- Claim C6: after any interleaving of enqueues and worker iterations, the
tasks consumed by the single worker followed by the still-pending tasks are
exactly the enqueue history in submission order (strict FIFO across all
producers), and the effect trace is the per-task effects concatenated in that
same order — each task's effect is fully applied before the next begins. -/
theorem c6_strict_fifo (evs : List QEvent) :
    (qrun evs).applied.map Prod.fst ++ (qrun evs).pending = (qrun evs).enqueuedLog ∧
    (qrun evs).actions = actionsOf (qrun evs).applied :=
  ⟨(qinv_run evs).fifo, (qinv_run evs).acts⟩

/-- The worker running one iteration per element of `os` (outcome and
connection flag observed at each iteration). -/
def processMany (s : QState) (os : List (ROutcome × Bool)) : QState :=
  os.foldl (fun st p => qstep st (QEvent.processOne p.1 p.2)) s

theorem processMany_drain :
    ∀ (os : List (ROutcome × Bool)) (s : QState), os.length = s.pending.length →
      (processMany s os).pending = [] ∧
      (processMany s os).applied.map Prod.fst = s.applied.map Prod.fst ++ s.pending
  | [], s, h => by
      have hp : s.pending = [] := by
        cases hp : s.pending with
        | nil => rfl
        | cons t rest => rw [hp] at h; simp at h
      simp [processMany, hp]
  | (o, c) :: os, s, h => by
      cases hp : s.pending with
      | nil => rw [hp] at h; simp at h
      | cons t rest =>
          have hstep : qstep s (QEvent.processOne o c) =
              { s with pending := rest, applied := s.applied ++ [(t, o, c)],
                       actions := s.actions ++ taskActions t o c } := by
            simp [qstep, hp]
          have hlen : os.length = rest.length := by
            rw [hp] at h
            simpa using h
          have ih := processMany_drain os (qstep s (QEvent.processOne o c))
            (by rw [hstep]; simpa using hlen)
          have hpm : processMany s ((o, c) :: os)
              = processMany (qstep s (QEvent.processOne o c)) os := rfl
          rw [hpm]
          refine ⟨ih.1, ?_⟩
          rw [ih.2, hstep]
          simp

/-- Claim C7: when the head task's collaborator invocation raises, the error
is caught and logged (the only effect), the task is consumed exactly once and
never retried, and the worker keeps going: any run of further iterations, one
per remaining task and with arbitrary outcomes, drains every subsequently
pending task in order. -/
theorem c7_failed_task_consumed (evs : List QEvent) (e : String) (c : Bool)
    (t : String × String) (rest : List (String × String))
    (hp : (qrun evs).pending = t :: rest) :
    (qstep (qrun evs) (QEvent.processOne (ROutcome.err e) c)).applied
      = (qrun evs).applied ++ [(t, ROutcome.err e, c)] ∧
    (qstep (qrun evs) (QEvent.processOne (ROutcome.err e) c)).pending = rest ∧
    (qstep (qrun evs) (QEvent.processOne (ROutcome.err e) c)).actions
      = (qrun evs).actions ++ [QAction.logQueueError e] ∧
    (∀ os : List (ROutcome × Bool), os.length = rest.length →
       (processMany (qstep (qrun evs) (QEvent.processOne (ROutcome.err e) c)) os).pending
         = [] ∧
       (processMany (qstep (qrun evs)
           (QEvent.processOne (ROutcome.err e) c)) os).applied.map Prod.fst
         = (qrun evs).applied.map Prod.fst ++ t :: rest) := by
  have htA : taskActions t (ROutcome.err e) c = [QAction.logQueueError e] := by
    unfold taskActions
    split <;> rfl
  refine ⟨by simp [qstep, hp], by simp [qstep, hp], by simp [qstep, hp, htA], ?_⟩
  intro os hos
  have hstep : (qstep (qrun evs) (QEvent.processOne (ROutcome.err e) c)).pending = rest := by
    simp [qstep, hp]
  have h := processMany_drain os _ (by rw [hstep]; exact hos)
  refine ⟨h.1, ?_⟩
  rw [h.2, hstep]
  simp [qstep, hp]

theorem c7_witness :
    (processMany (qstep (qrun [QEvent.enqueueTask ("c1", "red"),
        QEvent.enqueueTask ("REPLACE_MAP", "p")])
      (QEvent.processOne (ROutcome.err "boom") true)) [(ROutcome.ok, true)]).pending = [] :=
  ((c7_failed_task_consumed
      [QEvent.enqueueTask ("c1", "red"), QEvent.enqueueTask ("REPLACE_MAP", "p")]
      "boom" true ("c1", "red") [("REPLACE_MAP", "p")] rfl).2.2.2
    [(ROutcome.ok, true)] rfl).1

/-- Claim C9, counterexample: a draw task whose rendering invocation succeeds
while the connection is not live is consumed with its render effect applied
but no companion notification at all — the code guards the `!up` privmsg with
a connection-liveness check. -/
theorem c9_counterexample :
    (qrun [QEvent.enqueueTask ("500,500 510,510", "red"),
           QEvent.processOne ROutcome.ok false]).applied
      = [(("500,500 510,510", "red"), ROutcome.ok, false)] ∧
    (qrun [QEvent.enqueueTask ("500,500 510,510", "red"),
           QEvent.processOne ROutcome.ok false]).actions
      = [QAction.invokeRender "500,500 510,510" "red"] ∧
    QAction.notifyCompanion ∉
      (qrun [QEvent.enqueueTask ("500,500 510,510", "red"),
             QEvent.processOne ROutcome.ok false]).actions := by
  refine ⟨rfl, rfl, ?_⟩
  decide

/-- Claim C9 as amended: after a draw task whose rendering invocation
succeeds, the companion service is notified if and only if the transport
connection reports itself live at that moment; when disconnected the
notification is skipped. -/
theorem c9_notify_iff_connected (evs : List QEvent) (coord color : String)
    (rest : List (String × String)) (c : Bool)
    (hp : (qrun evs).pending = (coord, color) :: rest) (hdraw : coord ≠ "REPLACE_MAP") :
    (qstep (qrun evs) (QEvent.processOne ROutcome.ok c)).actions
      = (qrun evs).actions ++ QAction.invokeRender coord color ::
          (if c then [QAction.notifyCompanion] else []) ∧
    (QAction.notifyCompanion ∈ taskActions (coord, color) ROutcome.ok c ↔ c = true) := by
  have hta : taskActions (coord, color) ROutcome.ok c
      = QAction.invokeRender coord color :: (if c then [QAction.notifyCompanion] else []) := by
    simp [taskActions, hdraw]
  constructor
  · simp [qstep, hp, hta]
  · rw [hta]
    cases c <;> simp

theorem c9_witness :
    (qstep (qrun [QEvent.enqueueTask ("500,500 510,510", "red")])
        (QEvent.processOne ROutcome.ok true)).actions
      = (qrun [QEvent.enqueueTask ("500,500 510,510", "red")]).actions ++
          QAction.invokeRender "500,500 510,510" "red" :: [QAction.notifyCompanion] :=
  (c9_notify_iff_connected [QEvent.enqueueTask ("500,500 510,510", "red")]
    "500,500 510,510" "red" [] true rfl (by decide)).1

/-! The reconnect supervisor (`_reconnect_loop`). Each loop iteration observes
either that the transport is already live, or that a fresh connect attempt
succeeds, or that it fails. -/

inductive ConnObs
  | alreadyConnected
  | connectOk
  | connectFail
deriving DecidableEq

inductive RExit
  | observedConnected
  | connectedAndJoined
deriving DecidableEq

/-- Result of running the reconnect loop against a list of per-iteration
observations: the sleeps performed (in order) and, if the loop returned, the
exit kind together with the value of `reconnect_active` at return. `none`
means the loop is still running (it never returns by itself). -/
structure RResult where
  waits : List Nat
  outcome : Option (RExit × Bool)
deriving DecidableEq

/-- `MonopolyBot._reconnect_loop` with attempt counter `n`: exit immediately
if already connected or on a successful connect-and-join (both clear the
active flag); on a failed attempt sleep `min (base_wait * attempt) 300`,
increment the counter and retry. -/
def reconnectLoop (baseWait : Nat) : List ConnObs → Nat → RResult
  | [], _ => ⟨[], none⟩
  | ConnObs.alreadyConnected :: _, _ => ⟨[], some (RExit.observedConnected, false)⟩
  | ConnObs.connectOk :: _, _ => ⟨[], some (RExit.connectedAndJoined, false)⟩
  | ConnObs.connectFail :: rest, n =>
      ⟨min (baseWait * n) 300 :: (reconnectLoop baseWait rest (n + 1)).waits,
       (reconnectLoop baseWait rest (n + 1)).outcome⟩

/-- Entry point: the attempt counter starts at 1, base wait 60. -/
def reconnectStart (obs : List ConnObs) : RResult := reconnectLoop 60 obs 1

/-- The sleeps performed by `m` consecutive failures starting at attempt `a`. -/
def failWaits (baseWait a : Nat) : Nat → List Nat
  | 0 => []
  | Nat.succ k => min (baseWait * a) 300 :: failWaits baseWait (a + 1) k

theorem reconnectLoop_leading_fails (m : Nat) :
    ∀ (a : Nat) (rest : List ConnObs),
      reconnectLoop 60 (List.replicate m ConnObs.connectFail ++ rest) a =
        ⟨failWaits 60 a m ++ (reconnectLoop 60 rest (a + m)).waits,
         (reconnectLoop 60 rest (a + m)).outcome⟩ := by
  induction m with
  | zero =>
      intro a rest
      simp [failWaits]
  | succ k ih =>
      intro a rest
      rw [List.replicate_succ, List.cons_append]
      have harith : a + 1 + k = a + (k + 1) := by omega
      simp only [reconnectLoop, ih (a + 1) rest, failWaits, harith, List.cons_append]

theorem failWaits_eq_map (m : Nat) :
    ∀ a : Nat, failWaits 60 a m = (List.range m).map (fun i => min (60 * (a + i)) 300) := by
  induction m with
  | zero => intro a; rfl
  | succ k ih =>
      intro a
      rw [List.range_succ_eq_map]
      have hshift : ∀ i : Nat, a + 1 + i = a + (i + 1) := fun i => by omega
      simp only [failWaits, List.map_cons, List.map_map, Nat.add_zero, ih (a + 1), hshift]
      congr 1


/-- Claim C8: the reconnect loop starts counting attempts at 1; the sleep
before retrying the n-th failed attempt is `min (60 * n) 300` (so attempts
1..6 and beyond sleep 60,120,180,240,300,300); the counter advances only on
failures; and the loop never gives up — after any number of failures it is
still running, and its only exits are observing the transport already live or
a successful connect-and-join, both of which clear the active flag. -/
theorem c8_reconnect_backoff (m : Nat) (rest : List ConnObs) :
    (reconnectStart (List.replicate m ConnObs.connectFail)).outcome = none ∧
    (reconnectStart (List.replicate m ConnObs.connectFail)).waits
      = (List.range m).map (fun i => min (60 * (i + 1)) 300) ∧
    reconnectStart (List.replicate m ConnObs.connectFail ++ ConnObs.alreadyConnected :: rest)
      = ⟨(List.range m).map (fun i => min (60 * (i + 1)) 300),
         some (RExit.observedConnected, false)⟩ ∧
    reconnectStart (List.replicate m ConnObs.connectFail ++ ConnObs.connectOk :: rest)
      = ⟨(List.range m).map (fun i => min (60 * (i + 1)) 300),
         some (RExit.connectedAndJoined, false)⟩ ∧
    (reconnectStart (List.replicate 6 ConnObs.connectFail)).waits
      = [60, 120, 180, 240, 300, 300] := by
  have hmap : failWaits 60 1 m = (List.range m).map (fun i => min (60 * (i + 1)) 300) := by
    rw [failWaits_eq_map]
    simp [Nat.add_comm]
  have hbase : reconnectStart (List.replicate m ConnObs.connectFail)
      = ⟨failWaits 60 1 m, none⟩ := by
    have h := reconnectLoop_leading_fails m 1 []
    rw [List.append_nil] at h
    unfold reconnectStart
    rw [h]
    simp [reconnectLoop]
  refine ⟨?_, ?_, ?_, ?_, ?_⟩
  · rw [hbase]
  · rw [hbase, hmap]
  · unfold reconnectStart
    rw [reconnectLoop_leading_fails m 1 (ConnObs.alreadyConnected :: rest), hmap]
    simp [reconnectLoop]
  · unfold reconnectStart
    rw [reconnectLoop_leading_fails m 1 (ConnObs.connectOk :: rest), hmap]
    simp [reconnectLoop]
  · rfl

end Monopoly
